import Mathlib

/-!
Verification of the file-system analyzer (src/main.py) against its
natural-language specification.

The Python program is shallowly embedded:
  * `FileSystemElement` is the tree model (classes `File` and `Directory`);
  * `FileVisitor` is the observer protocol; Python's mutation of visitor
    objects becomes explicit state threading;
  * `accept` is the `File.accept` / `Directory.accept` pair;
  * the three concrete visitors (`FileSizeVisitor`, `PermissionVisitor`,
    `FileCategoryVisitor`) carry their probes (`os.path.getsize`,
    `os.stat(...).st_mode`, `mimetypes.guess_type`) as function parameters;
    a probe that would raise `OSError` returns `none` / `Except.error`;
  * `DirectoryAnalyzer.__init__` / `_build_directory_structure` /
    `analyze` and `main` are embedded over an explicit snapshot of the
    physical file system.
-/

/-- Tree model: `File` is a path; `Directory` is a path plus an ordered
list of children (`self.contents`). -/
inductive FileSystemElement where
  | file (path : String)
  | dir (path : String) (contents : List FileSystemElement)

/-- Observer protocol (`FileVisitor`): Python methods mutate `self`,
embedded as state-passing functions on a state type `σ`. -/
structure FileVisitor (σ : Type u) where
  visit_file : σ → String → σ
  visit_directory : σ → String → σ

mutual

/-- `File.accept` calls `visitor.visit_file(self)`; `Directory.accept`
calls `visitor.visit_directory(self)` and then `element.accept(visitor)`
for each child in stored order. -/
def accept (v : FileVisitor σ) : FileSystemElement → σ → σ
  | .file p, s => v.visit_file s p
  | .dir p cs, s => acceptList v cs (v.visit_directory s p)

/-- The `for element in self.contents: element.accept(visitor)` loop. -/
def acceptList (v : FileVisitor σ) : List FileSystemElement → σ → σ
  | [], s => s
  | e :: es, s => acceptList v es (accept v e s)

end

/-- One visit call: either `visit_file(path)` or `visit_directory(path)`. -/
inductive Event where
  | visitFile (path : String)
  | visitDir (path : String)
deriving DecidableEq

mutual

/-- The depth-first pre-order sequence of visit calls `accept` makes on a
tree (certified below by `accept_eq_foldl_events`). -/
def events : FileSystemElement → List Event
  | .file p => [.visitFile p]
  | .dir p cs => .visitDir p :: eventsList cs

/-- Events of a child list, in stored order. -/
def eventsList : List FileSystemElement → List Event
  | [] => []
  | e :: es => events e ++ eventsList es

end

/-- Dispatch one recorded event to a visitor. -/
def applyEvent (v : FileVisitor σ) (s : σ) : Event → σ
  | .visitFile p => v.visit_file s p
  | .visitDir p => v.visit_directory s p

mutual

/-- `accept` is exactly the left fold of the visitor's methods over the
pre-order event sequence: `events` is the true trace of visit calls. -/
theorem accept_eq_foldl_events (v : FileVisitor σ) :
    (t : FileSystemElement) → (s : σ) →
      accept v t s = (events t).foldl (applyEvent v) s
  | .file p, s => rfl
  | .dir p cs, s => by
      rw [accept, events, List.foldl_cons]
      exact acceptList_eq_foldl_events v cs (v.visit_directory s p)

theorem acceptList_eq_foldl_events (v : FileVisitor σ) :
    (cs : List FileSystemElement) → (s : σ) →
      acceptList v cs s = (eventsList cs).foldl (applyEvent v) s
  | [], s => rfl
  | e :: es, s => by
      rw [acceptList, eventsList, List.foldl_append,
        accept_eq_foldl_events v e s]
      exact acceptList_eq_foldl_events v es _

end

/-- Paths of the file nodes, in visit (pre-order) order. -/
def fileList (t : FileSystemElement) : List String :=
  (events t).filterMap fun e =>
    match e with
    | .visitFile p => some p
    | .visitDir _ => none

/-- A visitor whose `visit_directory` is a no-op reduces to a fold of
`visit_file` over the visited files in visit order. -/
theorem accept_noopDir (v : FileVisitor σ)
    (h : ∀ s p, v.visit_directory s p = s) (t : FileSystemElement) (s : σ) :
    accept v t s = (fileList t).foldl v.visit_file s := by
  rw [accept_eq_foldl_events, fileList]
  induction events t generalizing s with
  | nil => rfl
  | cons e es ih =>
    cases e with
    | visitFile p => simp [List.foldl_cons, List.filterMap_cons, applyEvent, ih]
    | visitDir p => simp [List.foldl_cons, List.filterMap_cons, applyEvent, h, ih]

/-- Python dict assignment `d[key] = val`: updates the value in place when
the key exists (keeping its position), otherwise appends a new entry. -/
def dictInsert (key : String) (val : α) : List (String × α) → List (String × α)
  | [] => [(key, val)]
  | (k, v) :: rest =>
      if k = key then (key, val) :: rest else (k, v) :: dictInsert key val rest

/-- State of `FileSizeVisitor` (`__init__`, default threshold 1000000). -/
structure FileSizeVisitor where
  file_sizes : List (String × Nat)
  total_size : Nat
  large_files : List (String × Nat)
  large_file_threshold : Nat

def FileSizeVisitor.init (large_file_threshold : Nat := 1000000) : FileSizeVisitor :=
  { file_sizes := [], total_size := 0, large_files := [],
    large_file_threshold := large_file_threshold }

/-- `FileSizeVisitor.visit_file`: `os.path.getsize` is the probe
`getsize`; `none` models a raised `OSError` (caught: state unchanged,
error logged). -/
def FileSizeVisitor.visit_file (getsize : String → Option Nat)
    (self : FileSizeVisitor) (path : String) : FileSizeVisitor :=
  match getsize path with
  | some size =>
      let self := { self with
        file_sizes := dictInsert path size self.file_sizes,
        total_size := self.total_size + size }
      if size > self.large_file_threshold then
        { self with large_files := self.large_files ++ [(path, size)] }
      else self
  | none => self

def FileSizeVisitor.toVisitor (getsize : String → Option Nat) :
    FileVisitor FileSizeVisitor :=
  { visit_file := FileSizeVisitor.visit_file getsize,
    visit_directory := fun s _ => s }

/-- The `FileSizeVisitor` state after the walk of `t`. -/
def runSizeVisitor (getsize : String → Option Nat) (thr : Nat)
    (t : FileSystemElement) : FileSizeVisitor :=
  accept (FileSizeVisitor.toVisitor getsize) t (FileSizeVisitor.init thr)

/-- The `large_files` entry a file contributes: present exactly when the
size probe succeeds and the size strictly exceeds the threshold. -/
def largeEntry (getsize : String → Option Nat) (thr : Nat) (p : String) :
    Option (String × Nat) :=
  match getsize p with
  | some size => if size > thr then some (p, size) else none
  | none => none

theorem size_visit_step (g : String → Option Nat) (s : FileSizeVisitor)
    (p : String) :
    (FileSizeVisitor.visit_file g s p).total_size
        = s.total_size + (g p).getD 0 ∧
    (FileSizeVisitor.visit_file g s p).large_files
        = s.large_files ++ (largeEntry g s.large_file_threshold p).toList ∧
    (FileSizeVisitor.visit_file g s p).large_file_threshold
        = s.large_file_threshold := by
  unfold FileSizeVisitor.visit_file largeEntry
  cases g p with
  | none => simp
  | some size =>
    by_cases h : size > s.large_file_threshold <;> simp [h]

theorem size_foldl (g : String → Option Nat) (ps : List String)
    (s : FileSizeVisitor) :
    (ps.foldl (FileSizeVisitor.visit_file g) s).total_size
        = s.total_size + ((ps.filterMap g).sum) ∧
    (ps.foldl (FileSizeVisitor.visit_file g) s).large_files
        = s.large_files ++ ps.filterMap (largeEntry g s.large_file_threshold) ∧
    (ps.foldl (FileSizeVisitor.visit_file g) s).large_file_threshold
        = s.large_file_threshold := by
  induction ps generalizing s with
  | nil => simp
  | cons p ps ih =>
    obtain ⟨h1, h2, h3⟩ := size_visit_step g s p
    obtain ⟨ih1, ih2, ih3⟩ := ih (FileSizeVisitor.visit_file g s p)
    refine ⟨?_, ?_, ?_⟩
    · rw [List.foldl_cons, ih1, h1, List.filterMap_cons]
      cases g p with
      | none => simp
      | some v => simp; omega
    · rw [List.foldl_cons, ih2, h2, h3, List.filterMap_cons]
      cases he : largeEntry g s.large_file_threshold p <;> simp [he]
    · rw [List.foldl_cons, ih3, h3]

theorem runSizeVisitor_eq_foldl (g : String → Option Nat) (thr : Nat)
    (t : FileSystemElement) :
    runSizeVisitor g thr t
      = (fileList t).foldl (FileSizeVisitor.visit_file g)
          (FileSizeVisitor.init thr) :=
  accept_noopDir _ (fun _ _ => rfl) t _

theorem largeEntry_eq_some (g : String → Option Nat) (thr : Nat)
    (q p : String) (sz : Nat) :
    largeEntry g thr q = some (p, sz) ↔ q = p ∧ g q = some sz ∧ thr < sz := by
  unfold largeEntry
  cases hq : g q with
  | none => simp
  | some size =>
    by_cases h : size > thr <;> simp [h]
    · rintro rfl rfl; exact h
    · rintro rfl rfl; omega


/-- C2: after a walk, `total_size` is the sum of the sizes of exactly the
visited files whose size probe succeeded; a file whose probe failed
contributes 0, never appears in `large_files`, and does not abort the
walk (the final state is the fold over the complete visit-order list). -/
theorem c2_total_size_and_failed_probe (g : String → Option Nat) (thr : Nat)
    (t : FileSystemElement) :
    (runSizeVisitor g thr t).total_size = ((fileList t).filterMap g).sum ∧
    runSizeVisitor g thr t
      = (fileList t).foldl (FileSizeVisitor.visit_file g)
          (FileSizeVisitor.init thr) ∧
    ∀ p, g p = none → ∀ sz : Nat,
      (p, sz) ∉ (runSizeVisitor g thr t).large_files := by
  have hf := runSizeVisitor_eq_foldl g thr t
  obtain ⟨h1, h2, -⟩ := size_foldl g (fileList t) (FileSizeVisitor.init thr)
  refine ⟨by rw [hf, h1]; simp [FileSizeVisitor.init], hf, ?_⟩
  intro p hnone sz hmem
  rw [hf, h2] at hmem
  simp only [FileSizeVisitor.init, List.nil_append, List.mem_filterMap] at hmem
  obtain ⟨q, -, hqe⟩ := hmem
  obtain ⟨rfl, hgs, -⟩ := (largeEntry_eq_some g _ q p sz).mp hqe
  rw [hnone] at hgs
  exact Option.noConfusion hgs

/-- Concrete file system probes and tree used by the witnesses. -/
def gW : String → Option Nat :=
  fun p => if p = "root/a.txt" then some 600 else none

def tW : FileSystemElement :=
  .dir "root" [.file "root/a.txt", .file "root/gone"]

theorem c2_witness :
    gW "root/gone" = none ∧
    ("root/gone", 5) ∉ (runSizeVisitor gW 500 tW).large_files :=
  ⟨by decide, (c2_total_size_and_failed_probe gW 500 tW).2.2 "root/gone"
    (by decide) 5⟩

theorem count_eq_one_of_nodup_mem [BEq α] [LawfulBEq α] {a : α} {l : List α}
    (hnd : l.Nodup) (h : a ∈ l) : l.count a = 1 := by
  induction l with
  | nil => cases h
  | cons x xs ih =>
    rw [List.count_cons]
    rcases List.mem_cons.mp h with rfl | hmem
    · rw [List.count_eq_zero_of_not_mem (List.nodup_cons.mp hnd).1]
      simp
    · have hne : x ≠ a := fun he => (List.nodup_cons.mp hnd).1 (he ▸ hmem)
      rw [ih (List.nodup_cons.mp hnd).2 hmem]
      simp [hne]

/-- C3: `large_files` is exactly the in-visit-order list of (path, size)
pairs of visited files whose probed size strictly exceeds the threshold;
membership characterization and, for duplicate-free file lists, exactly
one occurrence per qualifying file. -/
theorem c3_large_files_exact (g : String → Option Nat) (thr : Nat)
    (t : FileSystemElement) :
    (runSizeVisitor g thr t).large_files
        = (fileList t).filterMap (largeEntry g thr) ∧
    (∀ p sz, ((p, sz) ∈ (runSizeVisitor g thr t).large_files ↔
        p ∈ fileList t ∧ g p = some sz ∧ thr < sz)) ∧
    ((fileList t).Nodup → ∀ p sz,
      ((runSizeVisitor g thr t).large_files).count (p, sz)
        = if p ∈ fileList t ∧ g p = some sz ∧ thr < sz then 1 else 0) := by
  have hf := runSizeVisitor_eq_foldl g thr t
  obtain ⟨-, h2, -⟩ := size_foldl g (fileList t) (FileSizeVisitor.init thr)
  have heq : (runSizeVisitor g thr t).large_files
      = (fileList t).filterMap (largeEntry g thr) := by
    rw [hf, h2]; simp [FileSizeVisitor.init]
  have hmem : ∀ p sz, ((p, sz) ∈ (runSizeVisitor g thr t).large_files ↔
      p ∈ fileList t ∧ g p = some sz ∧ thr < sz) := by
    intro p sz
    rw [heq, List.mem_filterMap]
    constructor
    · rintro ⟨q, hq, hqe⟩
      obtain ⟨rfl, hgs, hlt⟩ := (largeEntry_eq_some g thr q p sz).mp hqe
      exact ⟨hq, hgs, hlt⟩
    · rintro ⟨hp, hgs, hlt⟩
      exact ⟨p, hp, (largeEntry_eq_some g thr p p sz).mpr ⟨rfl, hgs, hlt⟩⟩
  refine ⟨heq, hmem, ?_⟩
  intro hnd p sz
  have hinj : ∀ (a a' : String) (b : String × Nat),
      b ∈ largeEntry g thr a → b ∈ largeEntry g thr a' → a = a' := by
    intro a a' b hb hb'
    obtain ⟨rfl, -, -⟩ := (largeEntry_eq_some g thr a b.1 b.2).mp
      (by simpa using hb)
    obtain ⟨rfl, -, -⟩ := (largeEntry_eq_some g thr a' b.1 b.2).mp
      (by simpa using hb')
    rfl
  have hnodup : (runSizeVisitor g thr t).large_files.Nodup := by
    rw [heq]; exact List.Nodup.filterMap hinj hnd
  by_cases h : p ∈ fileList t ∧ g p = some sz ∧ thr < sz
  · rw [if_pos h]
    exact count_eq_one_of_nodup_mem hnodup ((hmem p sz).mpr h)
  · rw [if_neg h]
    exact List.count_eq_zero_of_not_mem (fun hm => h ((hmem p sz).mp hm))

theorem c3_witness :
    (fileList tW).Nodup ∧
    ((runSizeVisitor gW 500 tW).large_files).count ("root/a.txt", 600) = 1 := by
  have h := (c3_large_files_exact gW 500 tW).2.2 (by decide) "root/a.txt" 600
  rw [if_pos ⟨by decide, by decide, by decide⟩] at h
  exact ⟨by decide, h⟩

/-- `stat.S_IWOTH`: the world-write permission bit. -/
def S_IWOTH : Nat := 2

/-- State of `PermissionVisitor` (`__init__`). -/
structure PermissionVisitor where
  writable_files : List String

def PermissionVisitor.init : PermissionVisitor := ⟨[]⟩

/-- `PermissionVisitor.visit_file`: `os.stat(path).st_mode` is the probe
`statMode`; `none` models a raised `OSError` (caught: state unchanged).
Python's truthiness test `if mode & S_IWOTH:` is the bit being nonzero. -/
def PermissionVisitor.visit_file (statMode : String → Option Nat)
    (self : PermissionVisitor) (path : String) : PermissionVisitor :=
  match statMode path with
  | some mode =>
      if mode &&& S_IWOTH ≠ 0 then ⟨self.writable_files ++ [path]⟩ else self
  | none => self

def PermissionVisitor.toVisitor (statMode : String → Option Nat) :
    FileVisitor PermissionVisitor :=
  { visit_file := PermissionVisitor.visit_file statMode,
    visit_directory := fun s _ => s }

/-- The `PermissionVisitor` state after the walk of `t`. -/
def runPermissionVisitor (statMode : String → Option Nat)
    (t : FileSystemElement) : PermissionVisitor :=
  accept (PermissionVisitor.toVisitor statMode) t PermissionVisitor.init

/-- A file is flagged exactly when its mode probe succeeds and the
world-write bit is set. -/
def worldWritable (statMode : String → Option Nat) (p : String) : Bool :=
  match statMode p with
  | some mode => mode &&& S_IWOTH != 0
  | none => false

theorem perm_foldl (m : String → Option Nat) (ps : List String)
    (s : PermissionVisitor) :
    (ps.foldl (PermissionVisitor.visit_file m) s).writable_files
      = s.writable_files ++ ps.filter (worldWritable m) := by
  induction ps generalizing s with
  | nil => simp
  | cons p ps ih =>
    have hstep : (PermissionVisitor.visit_file m s p).writable_files
        = s.writable_files ++ if worldWritable m p then [p] else [] := by
      unfold PermissionVisitor.visit_file worldWritable
      cases m p with
      | none => simp
      | some mode => by_cases h : mode &&& S_IWOTH ≠ 0 <;> simp [h]
    rw [List.foldl_cons, ih, hstep, List.filter_cons]
    by_cases h : worldWritable m p <;> simp [h]

theorem runPermissionVisitor_eq_foldl (m : String → Option Nat)
    (t : FileSystemElement) :
    runPermissionVisitor m t
      = (fileList t).foldl (PermissionVisitor.visit_file m)
          PermissionVisitor.init :=
  accept_noopDir _ (fun _ _ => rfl) t _

/-- C6: the Permission Scan result is exactly the in-visit-order list of
visited file paths whose mode probe succeeded with the world-write bit
set; every flagged path is the path of a visited file (directories are
never flagged: `visit_directory` is `pass`); with a duplicate-free file
list, each qualifying file appears exactly once. -/
theorem c6_permission_scan (m : String → Option Nat) (t : FileSystemElement) :
    (runPermissionVisitor m t).writable_files
        = (fileList t).filter (worldWritable m) ∧
    (∀ p, p ∈ (runPermissionVisitor m t).writable_files → p ∈ fileList t) ∧
    ((fileList t).Nodup → ∀ p,
      ((runPermissionVisitor m t).writable_files).count p
        = if p ∈ fileList t ∧ worldWritable m p = true then 1 else 0) := by
  have heq : (runPermissionVisitor m t).writable_files
      = (fileList t).filter (worldWritable m) := by
    rw [runPermissionVisitor_eq_foldl, perm_foldl]
    simp [PermissionVisitor.init]
  refine ⟨heq, ?_, ?_⟩
  · intro p hp
    rw [heq] at hp
    exact List.mem_of_mem_filter hp
  · intro hnd p
    have hnodup : (runPermissionVisitor m t).writable_files.Nodup := by
      rw [heq]; exact List.Nodup.filter _ hnd
    have hmem : p ∈ (runPermissionVisitor m t).writable_files ↔
        p ∈ fileList t ∧ worldWritable m p = true := by
      rw [heq, List.mem_filter]
    by_cases h : p ∈ fileList t ∧ worldWritable m p = true
    · rw [if_pos h]
      exact count_eq_one_of_nodup_mem hnodup (hmem.mpr h)
    · rw [if_neg h]
      exact List.count_eq_zero_of_not_mem (fun hm => h (hmem.mp hm))

/-- Concrete mode probe for the C6 witness: `root/a.txt` is world
writable (mode 0o666), everything else is mode 0o644. -/
def mW : String → Option Nat :=
  fun p => if p = "root/a.txt" then some 438 else some 420

theorem c6_witness :
    (fileList tW).Nodup ∧
    ((runPermissionVisitor mW tW).writable_files).count "root/a.txt" = 1 := by
  have h := (c6_permission_scan mW tW).2.2 (by decide) "root/a.txt"
  rw [if_pos ⟨by decide, by decide⟩] at h
  exact ⟨by decide, h⟩

/-- Index of the last occurrence of `c` (Python `str.rfind`, as an
`Option` instead of -1). -/
def rfindIdx (c : Char) : List Char → Option Nat
  | [] => none
  | x :: xs =>
    match rfindIdx c xs with
    | some i => some (i + 1)
    | none => if x == c then some 0 else none

/-- The extension part of CPython `os.path.splitext` (posixpath, `sep`
is '/'): the last '.' must come after the last '/', and at least one
non-dot character of the basename must precede it (so names made of
leading dots, such as `.bashrc`, have no extension). -/
def splitextExt (p : String) : String :=
  let l := p.data
  match rfindIdx '.' l with
  | none => ""
  | some dotIndex =>
    let filenameIndex : Nat :=
      match rfindIdx '/' l with
      | none => 0
      | some sepIndex => sepIndex + 1
    if filenameIndex ≤ dotIndex then
      if ((l.drop filenameIndex).take (dotIndex - filenameIndex)).any
          (fun c => c != '.') then
        String.mk (l.drop dotIndex)
      else ""
    else ""

/-- Python `str.capitalize`: first character uppercased, the rest
lowercased. -/
def pyCapitalize (s : String) : String :=
  match s.data with
  | [] => ""
  | c :: rest => String.mk (c.toUpper :: rest.map Char.toLower)

/-- Python `str.startswith`. -/
def pyStartsWith (s pre : String) : Bool :=
  pre.data.isPrefixOf s.data

/-- Substring test at every start position (Python `sub in s`). -/
def listContainsSub [BEq α] (sub : List α) : List α → Bool
  | [] => sub.isEmpty
  | x :: rest => sub.isPrefixOf (x :: rest) || listContainsSub sub rest

/-- Python `sub in s` on strings. -/
def strContains (s sub : String) : Bool :=
  listContainsSub sub.data s.data

/-- The category resolution of `FileCategoryVisitor.visit_file`:
`mime_type` is the (successful) result of `mimetypes.guess_type`, `none`
meaning no guess; otherwise fall back to the extension. -/
def categoryOf (mime_type : Option String) (path : String) : String :=
  match mime_type with
  | some m =>
    if pyStartsWith m "text" then "Text"
    else if pyStartsWith m "image" then "Image"
    else if pyStartsWith m "video" then "Video"
    else if pyStartsWith m "application" && strContains m "executable" then
      "Executable"
    else "Other"
  | none =>
    let file_extension := splitextExt path
    if file_extension ≠ "" then pyCapitalize (file_extension.drop 1)
    else "Unknown"

/-- Python `if category not in d: d[category] = 0` followed by
`d[category] += 1`: bump in place, or append a fresh entry with count 1. -/
def dictIncr (key : String) : List (String × Nat) → List (String × Nat)
  | [] => [(key, 1)]
  | (k, v) :: rest =>
      if k = key then (k, v + 1) :: rest else (k, v) :: dictIncr key rest

/-- State of `FileCategoryVisitor` (`__init__`). -/
structure FileCategoryVisitor where
  file_categories : List (String × Nat)

def FileCategoryVisitor.init : FileCategoryVisitor := ⟨[]⟩

/-- `FileCategoryVisitor.visit_file`: the probe `guess_type` models
`mimetypes.guess_type`; `Except.error` models a raised `OSError`
(caught: the file is not counted in any category). -/
def FileCategoryVisitor.visit_file
    (guess_type : String → Except Unit (Option String))
    (self : FileCategoryVisitor) (path : String) : FileCategoryVisitor :=
  match guess_type path with
  | .error _ => self
  | .ok mime_type => ⟨dictIncr (categoryOf mime_type path) self.file_categories⟩

def FileCategoryVisitor.toVisitor
    (guess_type : String → Except Unit (Option String)) :
    FileVisitor FileCategoryVisitor :=
  { visit_file := FileCategoryVisitor.visit_file guess_type,
    visit_directory := fun s _ => s }

/-- The `FileCategoryVisitor` state after the walk of `t`. -/
def runCategoryVisitor (guess_type : String → Except Unit (Option String))
    (t : FileSystemElement) : FileCategoryVisitor :=
  accept (FileCategoryVisitor.toVisitor guess_type) t FileCategoryVisitor.init

theorem pyStartsWith_head (m pre : String) (h : pyStartsWith m pre = true)
    (hpre : pre.data ≠ []) : m.data.head? = pre.data.head? := by
  unfold pyStartsWith at h
  cases hp : pre.data with
  | nil => exact absurd hp hpre
  | cons a as =>
    rw [hp] at h
    cases hm : m.data with
    | nil => rw [hm] at h; exact absurd h (by simp [List.isPrefixOf])
    | cons b bs =>
      rw [hm] at h
      simp only [List.isPrefixOf, Bool.and_eq_true, beq_iff_eq] at h
      simp [h.1]

theorem pyStartsWith_false_of_head_ne (m p1 p2 : String)
    (h1 : pyStartsWith m p1 = true) (hp1 : p1.data ≠ []) (hp2 : p2.data ≠ [])
    (hne : p1.data.head? ≠ p2.data.head?) : pyStartsWith m p2 = false := by
  cases hx : pyStartsWith m p2
  · rfl
  · exact absurd
      (by rw [← pyStartsWith_head m p1 h1 hp1, pyStartsWith_head m p2 hx hp2])
      hne

/-- C7: on `visit_file`, the category precedence is: a content-type guess
with prefix text/image/video yields Text/Image/Video; a guess with prefix
`application` containing `executable` yields Executable; any other guess
yields Other; with no guess, the category is the file's extension (as
`os.path.splitext` computes it) after the dot, capitalized, or Unknown
when there is no extension. -/
theorem c7_category_precedence (m : String) (p : String) :
    (pyStartsWith m "text" = true → categoryOf (some m) p = "Text") ∧
    (pyStartsWith m "image" = true → categoryOf (some m) p = "Image") ∧
    (pyStartsWith m "video" = true → categoryOf (some m) p = "Video") ∧
    (pyStartsWith m "application" = true → strContains m "executable" = true →
      categoryOf (some m) p = "Executable") ∧
    (pyStartsWith m "text" = false → pyStartsWith m "image" = false →
      pyStartsWith m "video" = false →
      (pyStartsWith m "application" && strContains m "executable") = false →
      categoryOf (some m) p = "Other") ∧
    (categoryOf none p
      = if splitextExt p = "" then "Unknown"
        else pyCapitalize ((splitextExt p).drop 1)) := by
  refine ⟨?_, ?_, ?_, ?_, ?_, ?_⟩
  · intro h; simp [categoryOf, h]
  · intro h
    have htext := pyStartsWith_false_of_head_ne m "image" "text" h
      (by decide) (by decide) (by decide)
    simp [categoryOf, h, htext]
  · intro h
    have htext := pyStartsWith_false_of_head_ne m "video" "text" h
      (by decide) (by decide) (by decide)
    have himage := pyStartsWith_false_of_head_ne m "video" "image" h
      (by decide) (by decide) (by decide)
    simp [categoryOf, h, htext, himage]
  · intro h hc
    have htext := pyStartsWith_false_of_head_ne m "application" "text" h
      (by decide) (by decide) (by decide)
    have himage := pyStartsWith_false_of_head_ne m "application" "image" h
      (by decide) (by decide) (by decide)
    have hvideo := pyStartsWith_false_of_head_ne m "application" "video" h
      (by decide) (by decide) (by decide)
    simp [categoryOf, h, hc, htext, himage, hvideo]
  · intro h1 h2 h3 h4
    simp [categoryOf, h1, h2, h3, h4]
  · unfold categoryOf
    by_cases h : splitextExt p = "" <;> simp [h]

theorem c7_witness :
    pyStartsWith "application/x-executable" "application" = true ∧
    strContains "application/x-executable" "executable" = true ∧
    categoryOf (some "application/x-executable") "x" = "Executable" :=
  ⟨by decide, by decide,
    (c7_category_precedence "application/x-executable" "x").2.2.2.1
      (by decide) (by decide)⟩

/-- Sum of all bucket counts of a category mapping. -/
def sumCounts (l : List (String × Nat)) : Nat :=
  (l.map Prod.snd).sum

/-- Whether a probe call succeeded (the `try` body ran to completion). -/
def exceptOk : Except ε α → Bool
  | .ok _ => true
  | .error _ => false

theorem sumCounts_dictIncr (key : String) (l : List (String × Nat)) :
    sumCounts (dictIncr key l) = sumCounts l + 1 := by
  induction l with
  | nil => rfl
  | cons kv rest ih =>
    obtain ⟨k, v⟩ := kv
    unfold dictIncr
    by_cases h : k = key <;> simp [h, sumCounts] at ih ⊢ <;> omega

theorem cat_foldl (gt : String → Except Unit (Option String))
    (ps : List String) (s : FileCategoryVisitor) :
    sumCounts ((ps.foldl (FileCategoryVisitor.visit_file gt) s).file_categories)
      = sumCounts s.file_categories
        + (ps.filter (fun p => exceptOk (gt p))).length := by
  induction ps generalizing s with
  | nil => simp
  | cons p ps ih =>
    rw [List.foldl_cons, ih, List.filter_cons]
    cases hg : gt p with
    | error e =>
      simp [FileCategoryVisitor.visit_file, hg, exceptOk]
    | ok mt =>
      simp [FileCategoryVisitor.visit_file, hg, exceptOk, sumCounts_dictIncr]
      omega

/-- C8: a file whose classification probe succeeds increments exactly one
bucket by one, a file whose probe fails leaves the tally unchanged, so
after the walk the bucket counts sum to the number of files whose
classification succeeded. -/
theorem c8_category_sum (gt : String → Except Unit (Option String))
    (t : FileSystemElement) :
    (∀ s p mt, gt p = .ok mt →
      sumCounts ((FileCategoryVisitor.visit_file gt s p).file_categories)
        = sumCounts s.file_categories + 1) ∧
    (∀ s p e, gt p = .error e → FileCategoryVisitor.visit_file gt s p = s) ∧
    sumCounts ((runCategoryVisitor gt t).file_categories)
      = ((fileList t).filter (fun p => exceptOk (gt p))).length := by
  refine ⟨?_, ?_, ?_⟩
  · intro s p mt hg
    simp [FileCategoryVisitor.visit_file, hg, sumCounts_dictIncr]
  · intro s p e hg
    simp [FileCategoryVisitor.visit_file, hg]
  · have : runCategoryVisitor gt t
        = (fileList t).foldl (FileCategoryVisitor.visit_file gt)
            FileCategoryVisitor.init :=
      accept_noopDir _ (fun _ _ => rfl) t _
    rw [this, cat_foldl]
    simp [FileCategoryVisitor.init, sumCounts]

/-- Concrete guess probe for the C8 witness: the probe fails on
`root/gone` and yields a text guess elsewhere. -/
def gtW : String → Except Unit (Option String) :=
  fun p => if p = "root/gone" then .error () else .ok (some "text/plain")

theorem c8_witness :
    gtW "root/a.txt" = .ok (some "text/plain") ∧
    sumCounts ((FileCategoryVisitor.visit_file gtW
        FileCategoryVisitor.init "root/a.txt").file_categories)
      = sumCounts FileCategoryVisitor.init.file_categories + 1 :=
  ⟨by simp [gtW],
    (c8_category_sum gtW tW).1 FileCategoryVisitor.init "root/a.txt"
      (some "text/plain") (by simp [gtW])⟩

/-- A snapshot of the physical file system as `os.scandir` would deliver
it: a regular file, a readable subdirectory with its own entries, a
subdirectory on which `os.scandir` raises `OSError`, or an entry that is
neither file nor directory (skipped by the builder). -/
inductive PhysEntry where
  | pfile (path : String)
  | pdirOk (path : String) (entries : List PhysEntry)
  | pdirErr (path : String)
  | pother (path : String)

/-- `DirectoryAnalyzer._build_directory_structure`: scans the entries of
a directory in listing order; `entry.is_file()` appends a `File`,
`entry.is_dir()` appends a `Directory` and recurses into it before
continuing with the next sibling. There is no `try`/`except` here: an
`OSError` raised by `os.scandir` on a subdirectory propagates
(`Except.error`) and aborts the whole build. -/
def buildEntries : List PhysEntry → Except Unit (List FileSystemElement)
  | [] => .ok []
  | .pfile p :: rest =>
      match buildEntries rest with
      | .error e => .error e
      | .ok tail => .ok (.file p :: tail)
  | .pdirOk p entries :: rest =>
      match buildEntries entries with
      | .error e => .error e
      | .ok children =>
        match buildEntries rest with
        | .error e => .error e
        | .ok tail => .ok (.dir p children :: tail)
  | .pdirErr _ :: _ => .error ()
  | .pother _ :: rest => buildEntries rest

/-- Whether some (transitively reachable) subdirectory's scan fails. -/
def hasUnreadable : List PhysEntry → Bool
  | [] => false
  | .pfile _ :: rest => hasUnreadable rest
  | .pdirOk _ entries :: rest => hasUnreadable entries || hasUnreadable rest
  | .pdirErr _ :: _ => true
  | .pother _ :: rest => hasUnreadable rest

theorem buildEntries_ok_iff :
    (es : List PhysEntry) → exceptOk (buildEntries es) = !hasUnreadable es
  | [] => by simp [buildEntries, hasUnreadable, exceptOk]
  | .pfile p :: rest => by
      have ih := buildEntries_ok_iff rest
      rw [buildEntries, hasUnreadable, ← ih]
      cases buildEntries rest <;> simp [exceptOk]
  | .pdirOk p entries :: rest => by
      have ih1 := buildEntries_ok_iff entries
      have ih2 := buildEntries_ok_iff rest
      rw [buildEntries, hasUnreadable]
      cases he : buildEntries entries with
      | error e =>
          rw [he] at ih1
          simp only [exceptOk] at ih1
          simp [exceptOk, ← ih1]
      | ok children =>
          rw [he] at ih1
          simp only [exceptOk] at ih1
          cases hr : buildEntries rest with
          | error e =>
              rw [hr] at ih2
              simp only [exceptOk] at ih2
              simp [exceptOk, ← ih1, ← ih2]
          | ok tail =>
              rw [hr] at ih2
              simp only [exceptOk] at ih2
              simp [exceptOk, ← ih1, ← ih2]
  | .pdirErr p :: rest => by
      rw [buildEntries, hasUnreadable]
      simp [exceptOk]
  | .pother p :: rest => by
      have ih := buildEntries_ok_iff rest
      rw [buildEntries, hasUnreadable, ← ih]

/-- The two kinds of exception `DirectoryAnalyzer.__init__` can raise:
the `ValueError` for an invalid root, and an uncaught `OSError` escaping
`_build_directory_structure`. -/
inductive InitError where
  | invalidRoot (path : String)
  | osError
deriving DecidableEq

structure DirectoryAnalyzer where
  root_directory : FileSystemElement

/-- `DirectoryAnalyzer.__init__`: raises `ValueError` when
`os.path.isdir` fails on the root (probe `isdir`), otherwise builds the
tree from the root scan (probe result `rootScan`, plus the nested scans
inside `PhysEntry`). -/
def DirectoryAnalyzer.init (isdir : String → Bool)
    (rootScan : Except Unit (List PhysEntry)) (directory_path : String) :
    Except InitError DirectoryAnalyzer :=
  if ¬ isdir directory_path then .error (.invalidRoot directory_path)
  else
    match rootScan with
    | .error _ => .error .osError
    | .ok entries =>
      match buildEntries entries with
      | .error _ => .error .osError
      | .ok contents => .ok ⟨.dir directory_path contents⟩

/-- The three OS metadata probes the visitors consume. -/
structure Probes where
  getsize : String → Option Nat
  statMode : String → Option Nat
  guess_type : String → Except Unit (Option String)

/-- A registered visitor instance, as `main` can construct them. -/
inductive AnyVisitor where
  | sizeVisitor (large_file_threshold : Nat)
  | permissionVisitor
  | categoryVisitor
deriving DecidableEq

/-- `visitor.__class__.__name__`. -/
def AnyVisitor.className : AnyVisitor → String
  | .sizeVisitor _ => "FileSizeVisitor"
  | .permissionVisitor => "PermissionVisitor"
  | .categoryVisitor => "FileCategoryVisitor"

/-- A `visitor.get_result()` value. -/
inductive VisitorResult where
  | sizeResult (total_size : Nat) (large_files : List (String × Nat))
  | permissionResult (writable_files : List String)
  | categoryResult (file_categories : List (String × Nat))
deriving DecidableEq

/-- `root_directory.accept(visitor)` followed by `visitor.get_result()`. -/
def AnyVisitor.run (pr : Probes) (t : FileSystemElement) :
    AnyVisitor → VisitorResult
  | .sizeVisitor thr =>
      let s := runSizeVisitor pr.getsize thr t
      .sizeResult s.total_size s.large_files
  | .permissionVisitor =>
      .permissionResult (runPermissionVisitor pr.statMode t).writable_files
  | .categoryVisitor =>
      .categoryResult (runCategoryVisitor pr.guess_type t).file_categories

/-- `DirectoryAnalyzer.analyze`: for each visitor in registration order,
walk the tree with it, then store its result under
`visitor.__class__.__name__` in the results dict. -/
def analyze (pr : Probes) (t : FileSystemElement)
    (visitors : List AnyVisitor) : List (String × VisitorResult) :=
  visitors.foldl
    (fun results v => dictInsert v.className (v.run pr t) results) []

/-- Outcome of `main`: `exit(1)` on `ValueError`, an uncaught exception
(`OSError` from the build), or a completed run with its results. -/
inductive MainOutcome where
  | exited (code : Nat)
  | crashed
  | completed (results : List (String × VisitorResult))
deriving DecidableEq

/-- `main(directory_to_analyze)`: construct the analyzer (catching only
`ValueError`, logging and exiting 1), then analyze with
`[FileSizeVisitor(50000000), PermissionVisitor(), FileCategoryVisitor()]`. -/
def mainRun (pr : Probes) (isdir : String → Bool)
    (rootScan : Except Unit (List PhysEntry))
    (directory_to_analyze : String) : MainOutcome :=
  match DirectoryAnalyzer.init isdir rootScan directory_to_analyze with
  | .error (.invalidRoot _) => .exited 1
  | .error .osError => .crashed
  | .ok analyzer =>
      .completed (analyze pr analyzer.root_directory
        [.sizeVisitor 50000000, .permissionVisitor, .categoryVisitor])

/-- C4 fails on the code: with a perfectly valid root, an unreadable
subdirectory makes `_build_directory_structure` propagate the `OSError`
out of construction — the error is not recorded-and-skipped, and it is
not the invalid-root error. -/
theorem c4_counterexample :
    DirectoryAnalyzer.init (fun _ => true)
        (.ok [.pdirErr "root/sub", .pfile "root/f"]) "root"
      = .error .osError ∧
    mainRun ⟨fun _ => none, fun _ => none, fun _ => .error ()⟩
        (fun _ => true) (.ok [.pdirErr "root/sub", .pfile "root/f"]) "root"
      = .crashed := by
  constructor
  · rw [DirectoryAnalyzer.init]
    simp [buildEntries]
  · rw [mainRun, DirectoryAnalyzer.init]
    simp [buildEntries]

/-- C4 (amended): the per-file probe failures of the walk (size read,
permission read, type guess) are recoverable — the failing file is
skipped by that visitor and the walk continues over the rest of the
list — but an unreadable subdirectory during the tree build is not: the
build succeeds exactly when no reachable scan fails, and any unreadable
subdirectory aborts construction with the (non-invalid-root) `osError`. -/
theorem c4_amended :
    (∀ (g : String → Option Nat) (s : FileSizeVisitor)
        (ps1 ps2 : List String) (p : String), g p = none →
      (ps1 ++ p :: ps2).foldl (FileSizeVisitor.visit_file g) s
        = (ps1 ++ ps2).foldl (FileSizeVisitor.visit_file g) s) ∧
    (∀ (m : String → Option Nat) (s : PermissionVisitor)
        (ps1 ps2 : List String) (p : String), m p = none →
      (ps1 ++ p :: ps2).foldl (PermissionVisitor.visit_file m) s
        = (ps1 ++ ps2).foldl (PermissionVisitor.visit_file m) s) ∧
    (∀ (gt : String → Except Unit (Option String)) (s : FileCategoryVisitor)
        (ps1 ps2 : List String) (p : String) (e : Unit), gt p = .error e →
      (ps1 ++ p :: ps2).foldl (FileCategoryVisitor.visit_file gt) s
        = (ps1 ++ ps2).foldl (FileCategoryVisitor.visit_file gt) s) ∧
    (∀ es : List PhysEntry, exceptOk (buildEntries es) = !hasUnreadable es) ∧
    (∀ (isdir : String → Bool) (path : String) (es : List PhysEntry),
      isdir path = true → hasUnreadable es = true →
      DirectoryAnalyzer.init isdir (.ok es) path = .error .osError) := by
  refine ⟨?_, ?_, ?_, buildEntries_ok_iff, ?_⟩
  · intro g s ps1 ps2 p hp
    rw [List.foldl_append, List.foldl_append, List.foldl_cons]
    have : FileSizeVisitor.visit_file g (ps1.foldl
        (FileSizeVisitor.visit_file g) s) p
        = ps1.foldl (FileSizeVisitor.visit_file g) s := by
      unfold FileSizeVisitor.visit_file
      rw [hp]
    rw [this]
  · intro m s ps1 ps2 p hp
    rw [List.foldl_append, List.foldl_append, List.foldl_cons]
    have : PermissionVisitor.visit_file m (ps1.foldl
        (PermissionVisitor.visit_file m) s) p
        = ps1.foldl (PermissionVisitor.visit_file m) s := by
      unfold PermissionVisitor.visit_file
      rw [hp]
    rw [this]
  · intro gt s ps1 ps2 p e hp
    rw [List.foldl_append, List.foldl_append, List.foldl_cons]
    have : FileCategoryVisitor.visit_file gt (ps1.foldl
        (FileCategoryVisitor.visit_file gt) s) p
        = ps1.foldl (FileCategoryVisitor.visit_file gt) s := by
      unfold FileCategoryVisitor.visit_file
      rw [hp]
    rw [this]
  · intro isdir path es hdir hbad
    have h := buildEntries_ok_iff es
    rw [hbad] at h
    simp only [Bool.not_true] at h
    rw [DirectoryAnalyzer.init]
    cases hb : buildEntries es with
    | error e => simp [hdir, hb]
    | ok contents => rw [hb] at h; exact absurd h (by simp [exceptOk])

theorem c4_witness :
    hasUnreadable [.pdirErr "root/sub", .pfile "root/f"] = true ∧
    DirectoryAnalyzer.init (fun _ => true)
        (.ok [.pdirErr "root/sub", .pfile "root/f"]) "root"
      = .error .osError :=
  ⟨by simp [hasUnreadable],
    c4_amended.2.2.2.2 (fun _ => true) "root"
      [.pdirErr "root/sub", .pfile "root/f"] rfl (by simp [hasUnreadable])⟩

/-- C9: when the root path is not an existing directory, construction
fails with the distinguishable invalid-root error no matter what the
file system holds (so before any tree is built), and `main` exits with
status 1. -/
theorem c9_invalid_root (pr : Probes) (isdir : String → Bool)
    (rootScan : Except Unit (List PhysEntry)) (path : String)
    (h : isdir path = false) :
    DirectoryAnalyzer.init isdir rootScan path
      = .error (.invalidRoot path) ∧
    mainRun pr isdir rootScan path = .exited 1 := by
  constructor
  · unfold DirectoryAnalyzer.init
    simp [h]
  · unfold mainRun DirectoryAnalyzer.init
    simp [h]

theorem c9_witness :
    DirectoryAnalyzer.init (fun _ => false) (.ok []) "no-such-dir"
      = .error (.invalidRoot "no-such-dir") ∧
    mainRun ⟨fun _ => none, fun _ => none, fun _ => .error ()⟩
        (fun _ => false) (.ok []) "no-such-dir"
      = .exited 1 :=
  c9_invalid_root ⟨fun _ => none, fun _ => none, fun _ => .error ()⟩
    (fun _ => false) (.ok []) "no-such-dir" rfl

theorem dictInsert_lookup (k : String) (v : α) (d : List (String × α))
    (n : String) :
    (dictInsert k v d).lookup n = if n = k then some v else d.lookup n := by
  induction d with
  | nil =>
    simp only [dictInsert]
    by_cases h : n = k
    · simp [List.lookup, h]
    · have hb : (n == k) = false := beq_eq_false_iff_ne.mpr h
      simp [List.lookup, hb, h]
  | cons kv rest ih =>
    obtain ⟨k1, v1⟩ := kv
    simp only [dictInsert]
    by_cases h1 : k1 = k
    · subst h1
      rw [if_pos rfl]
      by_cases h : n = k1
      · simp [List.lookup, h]
      · have hb : (n == k1) = false := beq_eq_false_iff_ne.mpr h
        simp [List.lookup, hb, h]
    · rw [if_neg h1]
      by_cases h2 : n = k1
      · subst h2
        have hb : (n == n) = true := beq_iff_eq.mpr rfl
        simp [List.lookup, hb, h1]
      · have hb : (n == k1) = false := beq_eq_false_iff_ne.mpr h2
        simp [List.lookup, hb, ih]

theorem dictInsert_keys (k : String) (v : α) (d : List (String × α))
    (n : String) :
    n ∈ (dictInsert k v d).map Prod.fst ↔ n = k ∨ n ∈ d.map Prod.fst := by
  induction d with
  | nil => simp [dictInsert]
  | cons kv rest ih =>
    obtain ⟨k1, v1⟩ := kv
    simp only [dictInsert]
    by_cases h1 : k1 = k
    · subst h1
      rw [if_pos rfl]
      simp only [List.map_cons, List.mem_cons]
      constructor
      · rintro (rfl | hm)
        · exact Or.inl rfl
        · exact Or.inr (Or.inr hm)
      · rintro (rfl | rfl | hm)
        · exact Or.inl rfl
        · exact Or.inl rfl
        · exact Or.inr hm
    · rw [if_neg h1]
      simp only [List.map_cons, List.mem_cons, ih]
      tauto

theorem dictInsert_length (k : String) (v : α) (d : List (String × α)) :
    (dictInsert k v d).length
      = if k ∈ d.map Prod.fst then d.length else d.length + 1 := by
  induction d with
  | nil => simp [dictInsert]
  | cons kv rest ih =>
    obtain ⟨k1, v1⟩ := kv
    simp only [dictInsert]
    by_cases h1 : k1 = k
    · subst h1
      rw [if_pos rfl]
      simp
    · rw [if_neg h1]
      have hne : ¬ k = k1 := fun he => h1 he.symm
      simp only [List.map_cons, List.mem_cons, List.length_cons, ih]
      by_cases h : k ∈ rest.map Prod.fst
      · rw [if_pos h, if_pos (Or.inr h)]
      · rw [if_neg h, if_neg (fun hor => hor.elim hne h)]

theorem analyze_append (pr : Probes) (t : FileSystemElement)
    (vs : List AnyVisitor) (x : AnyVisitor) :
    analyze pr t (vs ++ [x])
      = dictInsert x.className (x.run pr t) (analyze pr t vs) := by
  unfold analyze
  rw [List.foldl_append]
  rfl

theorem analyze_keys (pr : Probes) (t : FileSystemElement)
    (vs : List AnyVisitor) (n : String) :
    n ∈ (analyze pr t vs).map Prod.fst
      ↔ n ∈ vs.map AnyVisitor.className := by
  induction vs using List.reverseRecOn with
  | nil => simp [analyze]
  | append_singleton xs x ih =>
    rw [analyze_append, dictInsert_keys]
    simp only [List.map_append, List.mem_append, List.map_cons, List.map_nil,
      List.mem_cons, List.not_mem_nil, or_false]
    rw [ih]
    exact or_comm

theorem analyze_length (pr : Probes) (t : FileSystemElement)
    (vs : List AnyVisitor) :
    (analyze pr t vs).length = (vs.map AnyVisitor.className).toFinset.card := by
  induction vs using List.reverseRecOn with
  | nil => simp [analyze]
  | append_singleton xs x ih =>
    rw [analyze_append, dictInsert_length, ih]
    have hkeys := analyze_keys pr t xs x.className
    have htf : ((xs ++ [x]).map AnyVisitor.className).toFinset
        = insert x.className (xs.map AnyVisitor.className).toFinset := by
      rw [List.map_append, List.toFinset_append]
      ext y
      simp [or_comm]
    rw [htf]
    by_cases h : x.className ∈ xs.map AnyVisitor.className
    · rw [if_pos (hkeys.mpr h),
        Finset.insert_eq_self.mpr (List.mem_toFinset.mpr h)]
    · rw [if_neg (fun hm => h (hkeys.mp hm)),
        Finset.card_insert_of_not_mem (fun hm => h (List.mem_toFinset.mp hm))]

theorem analyze_lookup (pr : Probes) (t : FileSystemElement)
    (vs : List AnyVisitor) (n : String) :
    (analyze pr t vs).lookup n
      = ((vs.filter (fun v => v.className == n)).getLast?).map
          (fun v => v.run pr t) := by
  induction vs using List.reverseRecOn with
  | nil => simp [analyze, List.lookup]
  | append_singleton xs x ih =>
    rw [analyze_append, dictInsert_lookup, List.filter_append]
    by_cases h : n = x.className
    · rw [if_pos h]
      have hbe : (x.className == n) = true := by
        rw [beq_iff_eq]; exact h.symm
      simp [List.filter_cons, hbe]
    · rw [if_neg h]
      have hbe : (x.className == n) = false := by
        rw [beq_eq_false_iff_ne]
        exact fun he => h he.symm
      simp [List.filter_cons, hbe, ih]

theorem toFinset_card_lt_of_not_nodup [DecidableEq α] (l : List α)
    (h : ¬ l.Nodup) : l.toFinset.card < l.length := by
  induction l with
  | nil => exact absurd List.nodup_nil h
  | cons a t ih =>
    rw [List.toFinset_cons, List.length_cons]
    by_cases ha : a ∈ t
    · have h1 : insert a t.toFinset = t.toFinset :=
        Finset.insert_eq_self.mpr (List.mem_toFinset.mpr ha)
      rw [h1]
      exact Nat.lt_succ_of_le t.toFinset_card_le
    · have hnd : ¬ t.Nodup := fun hn => h (List.nodup_cons.mpr ⟨ha, hn⟩)
      rw [Finset.card_insert_of_not_mem
        (fun hm => ha (List.mem_toFinset.mp hm))]
      exact Nat.succ_lt_succ (ih hnd)

/-- C10: `analyze` keys its results dict by `visitor.__class__.__name__`;
the entry under a class name holds the result of the last registered
visitor of that class, and when two registered visitors share a class the
mapping has strictly fewer entries than the visitor list. -/
theorem c10_results_keyed_by_class (pr : Probes) (t : FileSystemElement)
    (vs : List AnyVisitor) :
    (∀ n, (analyze pr t vs).lookup n
      = ((vs.filter (fun v => v.className == n)).getLast?).map
          (fun v => v.run pr t)) ∧
    (∀ i j : Nat, ∀ hi : i < vs.length, ∀ hj : j < vs.length, i < j →
      (vs.get ⟨i, hi⟩).className = (vs.get ⟨j, hj⟩).className →
      (analyze pr t vs).length < vs.length) := by
  refine ⟨analyze_lookup pr t vs, ?_⟩
  intro i j hi hj hij hcl
  rw [analyze_length]
  have hlen : (vs.map AnyVisitor.className).length = vs.length :=
    List.length_map vs AnyVisitor.className
  have hnd : ¬ (vs.map AnyVisitor.className).Nodup := by
    intro hnodup
    have hget : (vs.map AnyVisitor.className).get ⟨i, by omega⟩
        = (vs.map AnyVisitor.className).get ⟨j, by omega⟩ := by
      rw [List.get_eq_getElem, List.get_eq_getElem, List.getElem_map,
        List.getElem_map]
      exact hcl
    have := (List.Nodup.get_inj_iff hnodup).mp hget
    simp at this
    omega
  have := toFinset_card_lt_of_not_nodup _ hnd
  omega

theorem c10_witness :
    ((analyze ⟨fun _ => none, fun _ => none, fun _ => .error ()⟩ tW
        [.sizeVisitor 5, .sizeVisitor 7]).length < 2) :=
  (c10_results_keyed_by_class _ tW [.sizeVisitor 5, .sizeVisitor 7]).2
    0 1 (by decide) (by decide) (by decide) rfl

/-- A visitor that records the visit calls made to it, tagged with the
identity `tag` of the registered visitor instance receiving them. -/
def taggedRecorder (tag : ι) : FileVisitor (List (ι × Event)) :=
  { visit_file := fun s p => s ++ [(tag, .visitFile p)],
    visit_directory := fun s p => s ++ [(tag, .visitDir p)] }

/-- The global sequence of visit calls `analyze` makes: the
`for visitor in visitors` loop runs one full `root.accept(visitor)` walk
per registered visitor, in registration order. -/
def analyzeTrace (t : FileSystemElement) (tags : List ι) : List (ι × Event) :=
  tags.foldl (fun s tag => accept (taggedRecorder tag) t s) []

/-- Modelled from the spec: "perform exactly one depth-first pre-order
walk of the tree. At each Directory node, invoke every Analysis's
visit-directory operation (in registration order) before descending into
its children; at each File node, invoke every Analysis's visit-file
operation (in registration order)" — the single-pass interleaving the
claim asserts. -/
def singlePassTrace (t : FileSystemElement) (tags : List ι) :
    List (ι × Event) :=
  (events t).flatMap (fun e => tags.map (fun tag => (tag, e)))

theorem foldl_append_singleton (f : Event → β) (l : List Event)
    (s : List β) :
    l.foldl (fun acc e => acc ++ [f e]) s = s ++ l.map f := by
  induction l generalizing s with
  | nil => simp
  | cons e es ih => simp [ih]

theorem accept_taggedRecorder (tag : ι) (t : FileSystemElement)
    (s : List (ι × Event)) :
    accept (taggedRecorder tag) t s
      = s ++ (events t).map (fun e => (tag, e)) := by
  rw [accept_eq_foldl_events]
  have : ∀ (l : List Event) (s : List (ι × Event)),
      l.foldl (applyEvent (taggedRecorder tag)) s
        = l.foldl (fun acc e => acc ++ [(tag, e)]) s := by
    intro l
    induction l with
    | nil => intro s; rfl
    | cons e es ih =>
      intro s
      rw [List.foldl_cons, List.foldl_cons, ih]
      cases e <;> rfl
  rw [this, foldl_append_singleton (fun e => (tag, e))]

theorem analyzeTrace_eq_bind (t : FileSystemElement) (tags : List ι) :
    analyzeTrace t tags
      = tags.flatMap (fun tag => (events t).map (fun e => (tag, e))) := by
  unfold analyzeTrace
  suffices h : ∀ (gs : List ι) (s : List (ι × Event)),
      gs.foldl (fun s tag => accept (taggedRecorder tag) t s) s
        = s ++ gs.flatMap (fun tag => (events t).map (fun e => (tag, e))) by
    rw [h tags []]
    simp
  intro gs
  induction gs with
  | nil => intro s; simp
  | cons g gs ih =>
    intro s
    rw [List.foldl_cons, ih, accept_taggedRecorder, List.flatMap_cons,
      List.append_assoc]

/-- C1 fails on the code: `analyze` runs one complete walk per visitor
(`for visitor in visitors: self.root_directory.accept(visitor)`), so with
two registered visitors the second visitor's visit of the root happens
after the first visitor has already finished the whole tree — not the
single shared pass the claim describes. -/
theorem c1_counterexample :
    analyzeTrace (FileSystemElement.dir "root" [.file "root/a.txt"])
        [0, 1]
      ≠ singlePassTrace (FileSystemElement.dir "root" [.file "root/a.txt"])
        [0, 1] := by
  decide

theorem projTag [DecidableEq ι] (g g' : ι) (l : List Event) :
    ((l.map (fun e => (g', e))).filterMap
        (fun x : ι × Event => if x.1 = g then some x.2 else none))
      = if g' = g then l else [] := by
  rw [List.filterMap_map]
  by_cases h : g' = g
  · subst h
    have hc : ((fun x : ι × Event => if x.1 = g' then some x.2 else none)
        ∘ fun e => (g', e)) = some := by
      funext e
      simp
    rw [hc, List.filterMap_some, if_pos rfl]
  · simp [Function.comp, h]

theorem projTag_bind_zero [DecidableEq ι] (g : ι) (t : FileSystemElement)
    (gs : List ι) (h : gs.count g = 0) :
    ((gs.flatMap (fun tag => (events t).map (fun e => (tag, e)))).filterMap
        (fun x : ι × Event => if x.1 = g then some x.2 else none)) = [] := by
  induction gs with
  | nil => rfl
  | cons g' gs ih =>
    rw [List.count_cons] at h
    have hne : ¬ g' = g := by
      intro he
      simp [he] at h
    rw [List.flatMap_cons, List.filterMap_append, projTag, if_neg hne,
      ih (by omega)]
    rfl

/-- C1 (amended): `analyze` performs one complete depth-first pre-order
walk per registered visitor, the walks running one after another in
registration order (not interleaved node by node); consequently each
visitor registered exactly once still observes exactly the full pre-order
event sequence. -/
theorem c1_amended (ι : Type) [DecidableEq ι] (t : FileSystemElement)
    (tags : List ι) :
    analyzeTrace t tags
      = tags.flatMap (fun tag => (events t).map (fun e => (tag, e))) ∧
    (∀ g : ι, tags.count g = 1 →
      (analyzeTrace t tags).filterMap
          (fun x : ι × Event => if x.1 = g then some x.2 else none)
        = events t) := by
  refine ⟨analyzeTrace_eq_bind t tags, ?_⟩
  intro g hg
  rw [analyzeTrace_eq_bind]
  induction tags with
  | nil => simp at hg
  | cons g' gs ih =>
    rw [List.count_cons] at hg
    rw [List.flatMap_cons, List.filterMap_append, projTag]
    by_cases h : g' = g
    · rw [if_pos h]
      have hz : gs.count g = 0 := by
        simp [h] at hg
        omega
      rw [projTag_bind_zero g t gs hz, List.append_nil]
    · rw [if_neg h]
      have h1 : gs.count g = 1 := by
        simp [h] at hg
        exact hg
      rw [List.nil_append]
      exact ih h1

theorem c1_witness :
    ([0, 1] : List Nat).count 0 = 1 ∧
    (analyzeTrace tW [0, 1]).filterMap
        (fun x : Nat × Event => if x.1 = 0 then some x.2 else none)
      = events tW :=
  ⟨by decide, (c1_amended Nat tW [0, 1]).2 0 (by decide)⟩

theorem eventsList_append (l1 l2 : List FileSystemElement) :
    eventsList (l1 ++ l2) = eventsList l1 ++ eventsList l2 := by
  induction l1 with
  | nil => simp [eventsList]
  | cons e es ih => rw [List.cons_append, eventsList, eventsList, ih,
      List.append_assoc]

/-- C5: in the walk of a directory node, the node's own visit-directory
event comes first (before every event of its descendants), and the
events of an earlier child's subtree all precede the events of a later
child's subtree (sibling order = stored listing order); every visitor
observes exactly this sequence. -/
theorem c5_traversal_order (p : String) (cs pre mid post :
    List FileSystemElement) (c1 c2 : FileSystemElement)
    (h : cs = pre ++ c1 :: (mid ++ c2 :: post)) :
    events (.dir p cs)
      = Event.visitDir p ::
          (eventsList pre ++ events c1 ++ eventsList mid ++ events c2
            ++ eventsList post) ∧
    ∀ (σ : Type) (v : FileVisitor σ) (s : σ),
      accept v (.dir p cs) s
        = (Event.visitDir p ::
            (eventsList pre ++ events c1 ++ eventsList mid ++ events c2
              ++ eventsList post)).foldl (applyEvent v) s := by
  have heq : events (.dir p cs)
      = Event.visitDir p ::
          (eventsList pre ++ events c1 ++ eventsList mid ++ events c2
            ++ eventsList post) := by
    rw [events, h, eventsList_append, eventsList, eventsList_append,
      eventsList]
    simp [List.append_assoc]
  refine ⟨heq, ?_⟩
  intro σ v s
  rw [accept_eq_foldl_events, heq]

theorem c5_witness :
    events (.dir "root" [.file "root/a.txt", .file "root/gone"])
      = Event.visitDir "root" ::
          (eventsList [] ++ events (.file "root/a.txt") ++ eventsList []
            ++ events (.file "root/gone") ++ eventsList []) :=
  (c5_traversal_order "root" [.file "root/a.txt", .file "root/gone"]
    [] [] [] (.file "root/a.txt") (.file "root/gone") rfl).1
